import Mathlib

/-!
Verification of the procedural-generation library (src/lib.rs, src/perlinnoise.rs).

The Rust code is shallowly embedded:
* `usize` arithmetic is `Nat` with an explicit `% 2 ^ 64` wherever the source
  performs machine addition, multiplication or subtraction whose overflow is
  observable (release-mode wrapping semantics); out-of-bounds indexing of the
  map vector, which aborts the program, is modelled by `Option` (`none` =
  bounds violation / panic).
* `f64` values are modelled as real numbers; `f64::powf` is modelled by
  `Real.rpow`.
* The RNG (`rand::StdRng`) is an external collaborator; a run of
  `spawn_rooms` is therefore parameterised by the stream of sampled values
  `(x, y, width, height)`, one quadruple per placement attempt, exactly the
  values `gen_range` returns in the source.
* The external `noise` crate's `Perlin` primitive is not part of this
  repository; following the specification it is modelled as an arbitrary
  function `noise : ℝ → ℝ → ℝ` (the specification documents its range as
  `[-1, 1]`, which appears as a hypothesis where a claim needs it).
-/

/-- The modulus of 64-bit machine arithmetic. -/
def U64 : Nat := 2 ^ 64

/-- Wrapping 64-bit addition. -/
def wadd (a b : Nat) : Nat := (a + b) % U64

/-- Wrapping 64-bit multiplication. -/
def wmul (a b : Nat) : Nat := (a * b) % U64

/-- Wrapping 64-bit subtraction `a.wrapping_sub b` for `a b < 2 ^ 64`. -/
def wsub (a b : Nat) : Nat := (a + U64 - b) % U64

/-- `Room` from src/lib.rs: top-left corner `(x, y)`, bottom-right corner
`(x2, y2)` with `x2 = x + width`, `y2 = y + height` (wrapping adds). -/
structure Room where
  x : Nat
  y : Nat
  x2 : Nat
  y2 : Nat
  width : Nat
  height : Nat
deriving DecidableEq

/-- `Room::new` from src/lib.rs. -/
def Room.new (x y width height : Nat) : Room :=
  ⟨x, y, wadd x width, wadd y height, width, height⟩

/-- `Room::intersects` from src/lib.rs:
`self.x <= other.x2 && self.x2 >= other.x && self.y <= other.y2 && self.y2 >= other.y`. -/
def Room.intersects (a b : Room) : Bool :=
  decide (a.x ≤ b.x2) && decide (a.x2 ≥ b.x) && decide (a.y ≤ b.y2) && decide (a.y2 ≥ b.y)

/-- `NoiseOptions` from src/lib.rs. -/
structure NoiseOptions where
  frequency : ℝ
  redistribution : ℝ
  octaves : Nat

/-- `Generator` from src/lib.rs. The `map` vector holds the tiles in row-major
order. -/
structure Generator where
  map : List Nat
  width : Nat
  height : Nat
  noise_options : NoiseOptions
  rooms : List Room
  seed : Nat

/-- `Generator::with_size` from src/lib.rs:
`self.map = vec![0; width * height]; self.width = width; self.height = height`.
The `usize` product `width * height` wraps (release semantics), so the map
holds `(width * height) mod 2 ^ 64` zeroed cells. -/
def Generator.with_size (g : Generator) (width height : Nat) : Generator :=
  { g with map := List.replicate (wmul width height) 0, width := width, height := height }

/-- `Generator::get` from src/lib.rs: `self.map[x + y * self.width]`.
The index arithmetic wraps; indexing out of bounds aborts (`none`). -/
def Generator.get (g : Generator) (x y : Nat) : Option Nat :=
  g.map[wadd x (wmul y g.width)]?

/-- `Generator::set` from src/lib.rs: `self.map[x + y * self.width] = value`. -/
def Generator.set (g : Generator) (x y value : Nat) : Option Generator :=
  let i := wadd x (wmul y g.width)
  if i < g.map.length then some { g with map := g.map.set i value } else none

/-- The inner loop of `Generator::spawn_room`:
`for col in 0..width { self.set(room.x + col, room.y + row, number) }`,
iterated over the given list of column offsets. -/
def stampCols (number rx ry row : Nat) : Generator → List Nat → Option Generator
  | g, [] => some g
  | g, col :: rest =>
    match g.set (wadd rx col) (wadd ry row) number with
    | none => none
    | some g' => stampCols number rx ry row g' rest

/-- The outer loop of `Generator::spawn_room`:
`for row in 0..height { for col in 0..width { ... } }`. -/
def stampRows (number rx ry rw : Nat) : Generator → List Nat → Option Generator
  | g, [] => some g
  | g, row :: rest =>
    match stampCols number rx ry row g (List.range rw) with
    | none => none
    | some g' => stampRows number rx ry rw g' rest

/-- The room `Generator::spawn_room` builds from the sampled values
`(x0, y0, rw, rh)`: the origin is shifted back onto the grid
(`if x + width > self.width { x = self.width - width }`, wrapping) before
`Room::new` is called. -/
def Generator.candidate (g : Generator) (x0 y0 rw rh : Nat) : Room :=
  Room.new
    (if g.width < wadd x0 rw then wsub g.width rw else x0)
    (if g.height < wadd y0 rh then wsub g.height rh else y0)
    rw rh

/-- `Generator::spawn_room` from src/lib.rs, with the four `gen_range` results
passed in as `x0 y0 rw rh`: build the (shifted) candidate room, test it against
every previously accepted room with `Room::intersects`, and on no collision
stamp its rectangle with `number` and push it onto `rooms`. -/
def Generator.spawn_room (g : Generator) (number x0 y0 rw rh : Nat) : Option Generator :=
  let room := g.candidate x0 y0 rw rh
  if g.rooms.any (fun other => room.intersects other) then some g
  else
    match stampRows number room.x room.y rw g (List.range rh) with
    | none => none
    | some g' => some { g' with rooms := g'.rooms ++ [room] }

/-- The loop of `Generator::spawn_rooms`: one `spawn_room` call per sampled
quadruple. -/
def spawnRoomsAux (number : Nat) : Generator → List (Nat × Nat × Nat × Nat) → Option Generator
  | g, [] => some g
  | g, (x0, y0, rw, rh) :: rest =>
    match g.spawn_room number x0 y0 rw rh with
    | none => none
    | some g' => spawnRoomsAux number g' rest

/-- `Generator::spawn_rooms` from src/lib.rs: `for _ in 0..rooms { self.spawn_room(...) }`,
with `samples` the stream of RNG draws (one `(x, y, width, height)` quadruple
per attempt, so `samples.length` is the requested room count). -/
def Generator.spawn_rooms (g : Generator) (number : Nat)
    (samples : List (Nat × Nat × Nat × Nat)) : Option Generator :=
  spawnRoomsAux number g samples

/-- The multi-octave accumulation in `Generator::spawn_perlin`:
`(0..octaves).fold(0., |acc, n| acc + (1. / 2f64.powf(n)) * perlin.get([nx * freq * 2^n, ny * freq * 2^n]))`. -/
noncomputable def octaveSum (noise : ℝ → ℝ → ℝ) (octaves : Nat) (nx ny freq : ℝ) : ℝ :=
  (List.range octaves).foldl
    (fun acc n => acc + 1 / 2 ^ n * noise (nx * freq * 2 ^ n) (ny * freq * 2 ^ n)) 0

/-- The value `Generator::spawn_perlin` passes to the caller's classifier for
the cell `(x, y)`: `nx = x / width`, `ny = y / width` (both axes divided by
`width`), then `(value.powf(redistribution) + 1.) / 2.`. -/
noncomputable def perlinValue (noise : ℝ → ℝ → ℝ) (o : NoiseOptions) (width x y : Nat) : ℝ :=
  let nx : ℝ := (x : ℝ) / (width : ℝ)
  let ny : ℝ := (y : ℝ) / (width : ℝ)
  (Real.rpow (octaveSum noise o.octaves nx ny o.frequency) o.redistribution + 1) / 2

/-- `Generator::spawn_perlin` from src/lib.rs: every map cell at flat position
`pos` is overwritten with `f` applied to the noise value for
`x = pos % width`, `y = pos / width`. The data-parallel iteration writes each
cell independently, so the result is this per-index map. -/
noncomputable def Generator.spawn_perlin (g : Generator) (noise : ℝ → ℝ → ℝ)
    (f : ℝ → Nat) : Generator :=
  { g with
    map := (List.range g.map.length).map fun pos =>
      f (perlinValue noise g.noise_options g.width (pos % g.width) (pos / g.width)) }

/-- `fade` from src/perlinnoise.rs: `t * t * t * (t * (t * 6. - 15.) + 10.)`. -/
def fade (t : ℝ) : ℝ := t * t * t * (t * (t * 6 - 15) + 10)

/-- `lerp` from src/perlinnoise.rs: `a + t * (b - a)`. -/
def lerp (t a b : ℝ) : ℝ := a + t * (b - a)

/-- `grad` from src/perlinnoise.rs: picks `x` or `y` from `hash & 1` and
negates on the same bit. -/
def grad (hash : Nat) (x y : ℝ) : ℝ :=
  let v := if hash % 2 = 0 then x else y
  if hash % 2 = 0 then -v else v

/-- `PerlinNoise` from src/perlinnoise.rs (the hand-rolled variant):
a permutation table plus octave count and fallout factor. -/
structure PerlinNoise where
  perm : List Nat
  octaves : Nat
  fallout : ℝ

/-- `PerlinNoise::noise` from src/perlinnoise.rs. The cast
`x.floor() as usize` saturates (negative floors go to 0, huge floors to
`usize::MAX`) before `& 255`; table lookups are written with `getD` (they are
in bounds for every table built by `PerlinNoise::new`, whose 512 entries are
bounded by 255). -/
noncomputable def PerlinNoise.noise (p : PerlinNoise) (x y : ℝ) : ℝ :=
  let x0 := min (Int.toNat ⌊x⌋) (U64 - 1) % 256
  let y0 := min (Int.toNat ⌊y⌋) (U64 - 1) % 256
  let xf := x - (⌊x⌋ : ℝ)
  let yf := y - (⌊y⌋ : ℝ)
  let fx := fade xf
  let fy := fade yf
  let p0 := p.perm.getD x0 0 + y0
  let p1 := p.perm.getD (x0 + 1) 0 + y0
  lerp fy
    (lerp fx (grad (p.perm.getD p0 0) xf yf) (grad (p.perm.getD p1 0) (xf - 1) yf))
    (lerp fx (grad (p.perm.getD (p0 + 1) 0) xf (yf - 1))
      (grad (p.perm.getD (p1 + 1) 0) (xf - 1) (yf - 1)))

/-- The loop of `PerlinNoise::get`, run for `m` iterations on the state
`(effect, k, sum)` starting from `(1, 1, 0)`:
`effect *= fallout; sum += effect * ((1 + noise(k * x, k * y)) / 2); k *= 2`. -/
noncomputable def PerlinNoise.getLoop (p : PerlinNoise) (x y : ℝ) (m : Nat) : ℝ × ℝ × ℝ :=
  (List.range m).foldl
    (fun st _ =>
      let effect := st.1 * p.fallout
      (effect, st.2.1 * 2, st.2.2 + effect * ((1 + p.noise (st.2.1 * x) (st.2.1 * y)) / 2)))
    (1, 1, 0)

/-- The accumulated `sum` after the loop of `PerlinNoise::get`. -/
noncomputable def PerlinNoise.getSum (p : PerlinNoise) (x y : ℝ) : ℝ :=
  (p.getLoop x y p.octaves).2.2

/-- `PerlinNoise::get` from src/perlinnoise.rs: the accumulated sum is remapped
by `(sum - 0.35) * (1. / 0.25)` and clamped into `[0, 1]`. -/
noncomputable def PerlinNoise.get (p : PerlinNoise) (x y : ℝ) : ℝ :=
  let normalized := (p.getSum x y - 0.35) * (1 / 0.25)
  if 1 < normalized then 1 else if normalized < 0 then 0 else normalized

/-- Modelled from the spec: the accumulation described by the specification's
words for `PerlinNoise::get`, "accumulate `sum += amplitude * ((1 + noise(k*x, k*y)) / 2)`
for `octaves` iterations, with `amplitude` starting at 1 and multiplied by a
fallout factor (0.5) each iteration" — read, as the claim does, with the first
octave contributing with amplitude 1 (so octave `n` contributes `0.5 ^ n`). -/
noncomputable def claimGetSum (p : PerlinNoise) (x y : ℝ) : ℝ :=
  ∑ n ∈ Finset.range p.octaves, (1 / 2 : ℝ) ^ n * ((1 + p.noise (2 ^ n * x) (2 ^ n * y)) / 2)

/-- Default noise options (`frequency 1.0, redistribution 1.0, octaves 1`). -/
def opts1 : NoiseOptions := ⟨1, 1, 1⟩

/-- A concrete 2 × 2 generator. -/
def gen4 : Generator := ⟨[5, 6, 7, 8], 2, 2, opts1, [], 0⟩

/-- `gen4` after `set(0, 1, 9)` (flat index 2). -/
def gen4set : Generator := ⟨[5, 6, 9, 8], 2, 2, opts1, [], 0⟩

/-- A concrete 5 × 5 generator with an all-zero map, as produced by
`with_size(5, 5)`. -/
def gen5 : Generator := ⟨List.replicate 25 0, 5, 5, opts1, [], 0⟩

/-- `gen5` after two successful room placements with tile value 1:
`Room::new(0, 0, 2, 2)` and `Room::new(3, 3, 2, 2)`. -/
def gen5rooms : Generator :=
  ⟨[1, 1, 0, 0, 0, 1, 1, 0, 0, 0, 0, 0, 0, 0, 0, 0, 0, 0, 1, 1, 0, 0, 0, 1, 1],
   5, 5, opts1, [⟨0, 0, 2, 2, 2, 2⟩, ⟨3, 3, 5, 5, 2, 2⟩], 0⟩

/-- `gen5` after one successful placement of `Room::new(1, 1, 3, 3)` with tile
value 3. -/
def gen5room1 : Generator :=
  ⟨[0, 0, 0, 0, 0, 0, 3, 3, 3, 0, 0, 3, 3, 3, 0, 0, 3, 3, 3, 0, 0, 0, 0, 0, 0],
   5, 5, opts1, [⟨1, 1, 4, 4, 3, 3⟩], 0⟩

/-- A concrete `PerlinNoise` with one octave and the fallout `0.5` that
`PerlinNoise::new` installs (the permutation table is irrelevant at the
origin, where the lattice noise vanishes for every table). -/
noncomputable def pnoise0 : PerlinNoise := ⟨[], 1, 1 / 2⟩

/-- Row-major indexing: for `x < w` and `y < h` the flat index `x + y * w` is
within the `w * h` buffer and decodes back to `(x, y)`. -/
theorem rowmajor (w h x y : Nat) (hx : x < w) (hy : y < h) :
    x + y * w < w * h ∧ (x + y * w) % w = x ∧ (x + y * w) / w = y := by
  have hw : 0 < w := lt_of_le_of_lt (Nat.zero_le x) hx
  refine ⟨?_, ?_, ?_⟩
  · calc x + y * w < w + y * w := by omega
      _ = (y + 1) * w := by ring
      _ ≤ h * w := Nat.mul_le_mul_right w hy
      _ = w * h := Nat.mul_comm h w
  · rw [Nat.add_mul_mod_self_right, Nat.mod_eq_of_lt hx]
  · rw [Nat.add_mul_div_right x y hw, Nat.div_eq_of_lt hx, Nat.zero_add]

/-- C8 (counterexample): `with_size(2^32, 2^32)` does not produce a map of
`2^32 * 2^32` cells: the `usize` product wraps to 0 (release semantics) and
the map comes back empty, while `2^32 * 2^32 = 2^64` is not 0. -/
theorem with_size_wraps :
    (gen4.with_size (2 ^ 32) (2 ^ 32)).map = [] ∧ (2 ^ 32) * (2 ^ 32) ≠ 0 :=
  ⟨rfl, by decide⟩

/-- C8 (amended): whenever `w * h` does not overflow 64-bit arithmetic (every
size for which the buffer is actually allocatable), `with_size(w, h)` sets the
width to `w`, the height to `h`, and the map to exactly `w * h` cells, every
one equal to 0, whatever the prior state was; for `w * h ≥ 2^64` the
release-mode product wraps and the map holds `(w * h) mod 2^64` cells
instead. -/
theorem with_size_resets (g : Generator) (w h : Nat) (hwh : w * h < U64) :
    (g.with_size w h).width = w ∧ (g.with_size w h).height = h ∧
    (g.with_size w h).map.length = w * h ∧
    (g.with_size w h).map = List.replicate (w * h) 0 := by
  have hm : wmul w h = w * h := Nat.mod_eq_of_lt hwh
  refine ⟨rfl, rfl, ?_, ?_⟩ <;> simp [Generator.with_size, hm]

/-- Witness for the amended C8 at a concrete non-overflowing size. -/
theorem with_size_resets_witness :
    (gen4.with_size 3 2).width = 3 ∧ (gen4.with_size 3 2).height = 2 ∧
    (gen4.with_size 3 2).map.length = 3 * 2 ∧
    (gen4.with_size 3 2).map = List.replicate (3 * 2) 0 :=
  with_size_resets gen4 3 2 (by decide)

/-- C4 (counterexample): on the 2 × 2 generator `gen4`, the coordinate
`(2, 0)` is outside `[0, width) x [0, height)`, yet `Generator::get` does not
fail: it silently returns the contents of cell `(0, 1)` (the value 7 at flat
index 2), because `get` only checks the flat index `x + y * width` against the
buffer length. -/
theorem get_out_of_range_aliases :
    gen4.width ≤ 2 ∧ gen4.get 2 0 = some 7 := by
  exact ⟨by decide, rfl⟩

/-- C4 (amended): `Generator::get` and `Generator::set` fail with a bounds
violation exactly when the flat index `x + y * width` reaches the buffer
length `width * height`; an out-of-range `y` therefore always fails, but an
out-of-range `x` can silently alias a cell of a later row. -/
theorem get_set_out_of_range (g : Generator) (x y v : Nat)
    (hlen : g.map.length = g.width * g.height)
    (hov : x + y * g.width < U64) :
    g.get x y = g.map[x + y * g.width]? ∧
    (g.get x y = none ↔ g.width * g.height ≤ x + y * g.width) ∧
    (g.set x y v = none ↔ g.width * g.height ≤ x + y * g.width) := by
  have hmul : wmul y g.width = y * g.width := by
    unfold wmul
    exact Nat.mod_eq_of_lt (lt_of_le_of_lt (Nat.le_add_left _ x) hov)
  have hadd : wadd x (wmul y g.width) = x + y * g.width := by
    rw [hmul]
    exact Nat.mod_eq_of_lt hov
  refine ⟨by rw [Generator.get, hadd], ?_, ?_⟩
  · rw [Generator.get, hadd, List.getElem?_eq_none_iff, hlen]
  · simp only [Generator.set, hadd, hlen]
    rcases Nat.lt_or_ge (x + y * g.width) (g.width * g.height) with hc | hc
    · simp [hc, Nat.not_le.mpr hc]
    · simp [Nat.not_lt.mpr hc, hc]

/-- Witness for the amended C4 at a concrete out-of-range coordinate. -/
theorem get_set_out_of_range_witness :
    gen4.get 0 5 = gen4.map[0 + 5 * gen4.width]? ∧
    (gen4.get 0 5 = none ↔ gen4.width * gen4.height ≤ 0 + 5 * gen4.width) ∧
    (gen4.set 0 5 1 = none ↔ gen4.width * gen4.height ≤ 0 + 5 * gen4.width) :=
  get_set_out_of_range gen4 0 5 1 (by decide) (by decide)

/-- C10: on a well-sized generator, after an in-bounds `set(x, y, v)` the cell
`(x, y)` reads back `v` and every other in-bounds cell is unchanged. -/
theorem set_then_get (g g' : Generator) (x y x' y' v : Nat)
    (hlen : g.map.length = g.width * g.height)
    (hwh : g.width * g.height < U64)
    (hx : x < g.width) (hy : y < g.height)
    (hx' : x' < g.width) (hy' : y' < g.height)
    (hne : ¬(x' = x ∧ y' = y))
    (hset : g.set x y v = some g') :
    g'.get x y = some v ∧ g'.get x' y' = g.get x' y' := by
  have hw : 0 < g.width := lt_of_le_of_lt (Nat.zero_le x) hx
  have key : ∀ a b, a < g.width → b < g.height →
      wadd a (wmul b g.width) = a + b * g.width ∧ a + b * g.width < g.map.length := by
    intro a b ha hb
    have hlt := (rowmajor g.width g.height a b ha hb).1
    have hU : a + b * g.width < U64 := lt_trans hlt hwh
    constructor
    · unfold wadd wmul
      rw [Nat.mod_eq_of_lt (lt_of_le_of_lt (Nat.le_add_left _ a) hU), Nat.mod_eq_of_lt hU]
    · omega
  obtain ⟨hi, hiLen⟩ := key x y hx hy
  obtain ⟨hi', hiLen'⟩ := key x' y' hx' hy'
  have hdiff : x' + y' * g.width ≠ x + y * g.width := by
    intro hEq
    have hx2 : (x' + y' * g.width) % g.width = x' := (rowmajor _ _ _ _ hx' hy').2.1
    have hx3 : (x + y * g.width) % g.width = x := (rowmajor _ _ _ _ hx hy).2.1
    have hxx : x' = x := by rw [← hx2, hEq, hx3]
    have hyy : y' = y := by
      have : y' * g.width = y * g.width := by omega
      exact Nat.eq_of_mul_eq_mul_right hw this
    exact hne ⟨hxx, hyy⟩
  have hg' : g' = { g with map := g.map.set (x + y * g.width) v } := by
    simp only [Generator.set, hi, hiLen, if_pos] at hset
    exact (Option.some_injective _ hset).symm
  subst hg'
  constructor
  · show (g.map.set (x + y * g.width) v)[wadd x (wmul y g.width)]? = some v
    rw [hi]
    exact List.getElem?_set_eq_of_lt v (by omega)
  · show (g.map.set (x + y * g.width) v)[wadd x' (wmul y' g.width)]? = g.map[wadd x' (wmul y' g.width)]?
    rw [hi', List.getElem?_set_ne (by omega)]

/-- Witness for C10: on `gen4`, `set(0, 1, 9)` yields `gen4set`, cell `(0, 1)`
reads 9 and cell `(1, 0)` is unchanged. -/
theorem set_then_get_witness :
    gen4set.get 0 1 = some 9 ∧ gen4set.get 1 0 = gen4.get 1 0 :=
  set_then_get gen4 gen4set 0 1 1 0 9 (by decide) (by decide) (by decide)
    (by decide) (by decide) (by decide) (by decide) rfl

/-- C6: for every in-bounds cell `(x, y)`, `spawn_perlin` writes, at flat
index `x + y * width`, the classifier applied to the sample built from
`nx = x / width` and `ny = y / width` (both axes divided by `width`), the
octave pipeline at frequencies scaled by `2 ^ n`, and the redistribution
exponent. -/
theorem spawn_perlin_cell (g : Generator) (noise : ℝ → ℝ → ℝ) (f : ℝ → Nat) (x y : Nat)
    (hx : x < g.width) (hy : y < g.height)
    (hlen : g.map.length = g.width * g.height) :
    (g.spawn_perlin noise f).map[x + y * g.width]? =
      some (f ((Real.rpow (octaveSum noise g.noise_options.octaves
          ((x : ℝ) / (g.width : ℝ)) ((y : ℝ) / (g.width : ℝ)) g.noise_options.frequency)
          g.noise_options.redistribution + 1) / 2)) := by
  obtain ⟨hlt, hmod, hdiv⟩ := rowmajor g.width g.height x y hx hy
  have hi : x + y * g.width < g.map.length := by omega
  simp only [Generator.spawn_perlin, List.getElem?_map, List.getElem?_range, hi, if_pos,
    perlinValue]
  simp [hmod, hdiv]

/-- Witness for C6 on a concrete 2 × 2 generator at cell `(1, 1)`. -/
theorem spawn_perlin_cell_witness :
    (gen4.spawn_perlin (fun _ _ => 0) (fun _ => 3)).map[1 + 1 * gen4.width]? =
      some ((fun _ => 3) ((Real.rpow (octaveSum (fun _ _ => 0) gen4.noise_options.octaves
          ((1 : ℝ) / (gen4.width : ℝ)) ((1 : ℝ) / (gen4.width : ℝ))
          gen4.noise_options.frequency)
          gen4.noise_options.redistribution + 1) / 2)) := by
  have h := spawn_perlin_cell gen4 (fun _ _ => 0) (fun _ => 3) 1 1
    (by decide) (by decide) (by decide)
  simpa using h

/-- A single octave reduces the accumulation of `spawn_perlin` to one noise
sample at `(nx * freq, ny * freq)`. -/
theorem octaveSum_one (noise : ℝ → ℝ → ℝ) (nx ny freq : ℝ) :
    octaveSum noise 1 nx ny freq = noise (nx * freq) (ny * freq) := by
  have h1 : (List.range 1) = [0] := rfl
  unfold octaveSum
  rw [h1]
  norm_num

/-- C1 (counterexample): with two octaves, `spawn_perlin` can pass a value
greater than 1 to the classifier. The noise primitive `fun _ _ => 1` stays
within the documented range `[-1, 1]`; with `frequency 1`, `redistribution 1`
(a finite exponent `≥ 0`, and `powf(v, 1) = v` exactly), `octaves = 2`, on a
1 × 1 grid at cell `(0, 0)` the octave sum is `1 + 1/2 = 1.5` and the value
fed to the classifier is `(1.5 + 1) / 2 = 1.25`. -/
theorem perlin_value_exceeds_one :
    1 < perlinValue (fun _ _ => 1) ⟨1, 1, 2⟩ 1 0 0 := by
  have h2 : (List.range 2) = [0, 1] := rfl
  unfold perlinValue octaveSum
  rw [h2]
  norm_num [Real.rpow_one]

/-- C1 (amended): with a single octave and redistribution exponent 1, every
value `spawn_perlin` passes to the classifier lies within `[0, 1]`, provided
the noise primitive returns values in `[-1, 1]`: the cell at flat position
`pos` receives the classifier applied to `perlinValue` at
`(pos % width, pos / width)`, and that value is within the unit interval. -/
theorem spawn_perlin_classifier_range (g : Generator) (noise : ℝ → ℝ → ℝ) (f : ℝ → Nat)
    (pos : Nat) (hpos : pos < g.map.length)
    (hnoise : ∀ a b, -1 ≤ noise a b ∧ noise a b ≤ 1)
    (hoct : g.noise_options.octaves = 1)
    (hred : g.noise_options.redistribution = 1) :
    (g.spawn_perlin noise f).map[pos]? =
      some (f (perlinValue noise g.noise_options g.width (pos % g.width) (pos / g.width))) ∧
    0 ≤ perlinValue noise g.noise_options g.width (pos % g.width) (pos / g.width) ∧
    perlinValue noise g.noise_options g.width (pos % g.width) (pos / g.width) ≤ 1 := by
  refine ⟨?_, ?_⟩
  · simp [Generator.spawn_perlin, List.getElem?_range, hpos]
  · obtain ⟨hlo, hhi⟩ := hnoise
      ((((pos % g.width : Nat) : ℝ) / (g.width : ℝ)) * g.noise_options.frequency)
      ((((pos / g.width : Nat) : ℝ) / (g.width : ℝ)) * g.noise_options.frequency)
    have hr : ∀ t : ℝ, Real.rpow t 1 = t := fun t => Real.rpow_one t
    simp only [perlinValue, hoct, hred, octaveSum_one, hr]
    constructor
    · linarith
    · linarith

/-- Witness for the amended C1 on a concrete 2 × 2 generator with the constant
zero noise primitive. -/
theorem spawn_perlin_classifier_range_witness :
    (gen4.spawn_perlin (fun _ _ => 0) (fun _ => 1)).map[0]? =
      some ((fun _ => 1) (perlinValue (fun _ _ => 0) gen4.noise_options gen4.width
        (0 % gen4.width) (0 / gen4.width))) ∧
    0 ≤ perlinValue (fun _ _ => 0) gen4.noise_options gen4.width
        (0 % gen4.width) (0 / gen4.width) ∧
    perlinValue (fun _ _ => 0) gen4.noise_options gen4.width
        (0 % gen4.width) (0 / gen4.width) ≤ 1 :=
  spawn_perlin_classifier_range gen4 (fun _ _ => 0) (fun _ => 1) 0 (by decide)
    (fun _ _ => by norm_num) (by decide) (by norm_num [gen4, opts1])

/-- Closed form of the loop state of `PerlinNoise::get` after `m` iterations:
the amplitude is `fallout ^ m`, the frequency multiplier is `2 ^ m`, and the
sum has octave `n` contributing with amplitude `fallout ^ (n + 1)` (the
amplitude is multiplied by the fallout factor before it is first used). -/
theorem getLoop_eq (p : PerlinNoise) (x y : ℝ) (m : Nat) :
    p.getLoop x y m =
      (p.fallout ^ m, 2 ^ m,
        ∑ n ∈ Finset.range m,
          p.fallout ^ (n + 1) * ((1 + p.noise (2 ^ n * x) (2 ^ n * y)) / 2)) := by
  induction m with
  | zero => simp [PerlinNoise.getLoop]
  | succ k ih =>
    unfold PerlinNoise.getLoop at ih ⊢
    rw [List.range_succ, List.foldl_append, ih]
    simp only [List.foldl_cons, List.foldl_nil, Finset.sum_range_succ]
    refine Prod.ext ?_ (Prod.ext ?_ ?_)
    · simp [pow_succ]
    · simp [pow_succ]
    · simp [pow_succ]

/-- C5 (counterexample): at the origin, with one octave and the fallout `0.5`
installed by `PerlinNoise::new`, the sum accumulated by `PerlinNoise::get` is
`0.5 * ((1 + noise(0, 0)) / 2) = 0.25`, not the `1 * ((1 + noise(0, 0)) / 2) = 0.5`
demanded by the claim's reading that the first octave contributes with
amplitude 1: `effect *= self.fallout` runs before the first contribution. -/
theorem perlinnoise_first_octave_amplitude :
    PerlinNoise.getSum pnoise0 0 0 ≠ claimGetSum pnoise0 0 0 := by
  have hoct : pnoise0.octaves = 1 := rfl
  have hfall : pnoise0.fallout = 1 / 2 := rfl
  have hn : pnoise0.noise 0 0 = 0 := by
    simp [pnoise0, PerlinNoise.noise, fade, lerp, grad]
  have h1 : PerlinNoise.getSum pnoise0 0 0 = 1 / 4 := by
    unfold PerlinNoise.getSum
    rw [getLoop_eq, hoct]
    norm_num [Finset.sum_range_one, hn, hfall]
  have h2 : claimGetSum pnoise0 0 0 = 1 / 2 := by
    unfold claimGetSum
    rw [hoct]
    norm_num [Finset.sum_range_one, hn]
  rw [h1, h2]
  norm_num

/-- C5 (amended): `PerlinNoise::get` accumulates
`sum += effect * ((1 + noise(k * x, k * y)) / 2)` over exactly `octaves`
iterations with `k` starting at 1 and doubling, but the amplitude `effect`
(initialised to 1) is multiplied by the fallout factor before each
contribution, so octave `n` contributes with amplitude `fallout ^ (n + 1)` —
in particular the first octave contributes with amplitude `fallout` (0.5 for
tables from `PerlinNoise::new`), not 1. -/
theorem perlinnoise_get_accumulation (p : PerlinNoise) (x y : ℝ) :
    p.getSum x y =
      ∑ n ∈ Finset.range p.octaves,
        p.fallout ^ (n + 1) * ((1 + p.noise (2 ^ n * x) (2 ^ n * y)) / 2) := by
  unfold PerlinNoise.getSum
  rw [getLoop_eq]

/-- Wrapping addition is plain addition below the modulus. -/
theorem wadd_eq {a b : Nat} (h : a + b < U64) : wadd a b = a + b := Nat.mod_eq_of_lt h

/-- Wrapping subtraction is plain subtraction when it does not underflow. -/
theorem wsub_eq {a b : Nat} (hba : b ≤ a) (ha : a < U64) : wsub a b = a - b := by
  unfold wsub
  have h1 : a + U64 - b = a - b + U64 := by omega
  rw [h1, Nat.add_mod_right]
  exact Nat.mod_eq_of_lt (lt_of_le_of_lt (Nat.sub_le a b) ha)

/-- A successful `set` only rewrites one map entry: width, height, rooms and
map length are untouched. -/
theorem set_frame {g g' : Generator} {x y v : Nat} (h : g.set x y v = some g') :
    g'.width = g.width ∧ g'.height = g.height ∧ g'.rooms = g.rooms ∧
    g'.map.length = g.map.length := by
  simp only [Generator.set] at h
  split at h
  · cases h
    exact ⟨rfl, rfl, rfl, by simp⟩
  · cases h

/-- The column loop of `spawn_room` only writes map entries. -/
theorem stampCols_frame {number rx ry row : Nat} :
    ∀ (cols : List Nat) (g g' : Generator),
      stampCols number rx ry row g cols = some g' →
      g'.width = g.width ∧ g'.height = g.height ∧ g'.rooms = g.rooms ∧
      g'.map.length = g.map.length
  | [], g, g', h => by
    unfold stampCols at h
    cases h
    exact ⟨rfl, rfl, rfl, rfl⟩
  | col :: rest, g, g', h => by
    unfold stampCols at h
    cases hset : g.set (wadd rx col) (wadd ry row) number with
    | none => rw [hset] at h; cases h
    | some g1 =>
      rw [hset] at h
      obtain ⟨h1, h2, h3, h4⟩ := stampCols_frame rest g1 g' h
      obtain ⟨k1, k2, k3, k4⟩ := set_frame hset
      exact ⟨h1.trans k1, h2.trans k2, h3.trans k3, h4.trans k4⟩

/-- The row loop of `spawn_room` only writes map entries. -/
theorem stampRows_frame {number rx ry rw : Nat} :
    ∀ (rows : List Nat) (g g' : Generator),
      stampRows number rx ry rw g rows = some g' →
      g'.width = g.width ∧ g'.height = g.height ∧ g'.rooms = g.rooms ∧
      g'.map.length = g.map.length
  | [], g, g', h => by
    unfold stampRows at h
    cases h
    exact ⟨rfl, rfl, rfl, rfl⟩
  | row :: rest, g, g', h => by
    unfold stampRows at h
    cases hrow : stampCols number rx ry row g (List.range rw) with
    | none => rw [hrow] at h; cases h
    | some g1 =>
      rw [hrow] at h
      obtain ⟨h1, h2, h3, h4⟩ := stampRows_frame rest g1 g' h
      obtain ⟨k1, k2, k3, k4⟩ := stampCols_frame _ _ _ hrow
      exact ⟨h1.trans k1, h2.trans k2, h3.trans k3, h4.trans k4⟩

/-- `Room::intersects` is symmetric: the four inclusive comparisons swap into
each other when the arguments are exchanged. -/
theorem intersects_comm (a b : Room) : a.intersects b = b.intersects a := by
  unfold Room.intersects
  rw [Bool.eq_iff_iff]
  simp only [Bool.and_eq_true, decide_eq_true_eq, ge_iff_le]
  tauto

/-- Inversion for a successful `spawn_room` call: either the candidate room
collided with an accepted room and the generator is returned unchanged, or it
collided with none, its rectangle was stamped (touching only map entries), and
it was appended to the room list. -/
theorem spawn_room_inv {g g' : Generator} {number x0 y0 rw rh : Nat}
    (h : g.spawn_room number x0 y0 rw rh = some g') :
    (g' = g ∧ (g.rooms.any fun o => (g.candidate x0 y0 rw rh).intersects o) = true) ∨
    ((∀ o ∈ g.rooms, (g.candidate x0 y0 rw rh).intersects o = false) ∧
      g'.rooms = g.rooms ++ [g.candidate x0 y0 rw rh] ∧
      g'.width = g.width ∧ g'.height = g.height ∧ g'.map.length = g.map.length) := by
  simp only [Generator.spawn_room] at h
  split at h
  · next hc =>
    left
    cases h
    exact ⟨rfl, hc⟩
  · next hc =>
    right
    rw [Bool.not_eq_true, List.any_eq_false] at hc
    cases hst : stampRows number (g.candidate x0 y0 rw rh).x (g.candidate x0 y0 rw rh).y rw g
        (List.range rh) with
    | none => rw [hst] at h; cases h
    | some g1 =>
      rw [hst] at h
      cases h
      obtain ⟨k1, k2, k3, k4⟩ := stampRows_frame _ _ _ hst
      refine ⟨fun o ho => ?_, ?_, k1, k2, k4⟩
      · exact Bool.not_eq_true _ ▸ hc o ho
      · simp [k3]

/-- The loop of `spawn_rooms` never changes width, height or map length. -/
theorem spawnRoomsAux_frame {number : Nat} :
    ∀ (samples : List (Nat × Nat × Nat × Nat)) (g g' : Generator),
      spawnRoomsAux number g samples = some g' →
      g'.width = g.width ∧ g'.height = g.height ∧ g'.map.length = g.map.length
  | [], g, g', h => by
    unfold spawnRoomsAux at h
    cases h
    exact ⟨rfl, rfl, rfl⟩
  | (x0, y0, rw, rh) :: rest, g, g', h => by
    unfold spawnRoomsAux at h
    cases hsp : g.spawn_room number x0 y0 rw rh with
    | none => rw [hsp] at h; cases h
    | some g1 =>
      rw [hsp] at h
      obtain ⟨h1, h2, h3⟩ := spawnRoomsAux_frame rest g1 g' h
      rcases spawn_room_inv hsp with ⟨rfl, _⟩ | ⟨_, _, k1, k2, k3⟩
      · exact ⟨h1, h2, h3⟩
      · exact ⟨h1.trans k1, h2.trans k2, h3.trans k3⟩

/-- Each attempt of the `spawn_rooms` loop appends at most one room. -/
theorem spawnRoomsAux_rooms_le {number : Nat} :
    ∀ (samples : List (Nat × Nat × Nat × Nat)) (g g' : Generator),
      spawnRoomsAux number g samples = some g' →
      g'.rooms.length ≤ g.rooms.length + samples.length
  | [], g, g', h => by
    unfold spawnRoomsAux at h
    cases h
    simp
  | (x0, y0, rw, rh) :: rest, g, g', h => by
    unfold spawnRoomsAux at h
    cases hsp : g.spawn_room number x0 y0 rw rh with
    | none => rw [hsp] at h; cases h
    | some g1 =>
      rw [hsp] at h
      have hrest := spawnRoomsAux_rooms_le rest g1 g' h
      rcases spawn_room_inv hsp with ⟨rfl, _⟩ | ⟨_, k, _, _, _⟩
      · simp only [List.length_cons]
        omega
      · have : g1.rooms.length = g.rooms.length + 1 := by simp [k]
        simp only [List.length_cons]
        omega

/-- The `spawn_rooms` loop preserves pairwise non-intersection of the
accumulated room list: a candidate is only appended after `Room::intersects`
returned false against every accepted room, and the predicate is symmetric. -/
theorem spawnRoomsAux_pairwise {number : Nat} :
    ∀ (samples : List (Nat × Nat × Nat × Nat)) (g g' : Generator),
      spawnRoomsAux number g samples = some g' →
      List.Pairwise (fun a b => a.intersects b = false) g.rooms →
      List.Pairwise (fun a b => a.intersects b = false) g'.rooms
  | [], g, g', h, hp => by
    unfold spawnRoomsAux at h
    cases h
    exact hp
  | (x0, y0, rw, rh) :: rest, g, g', h, hp => by
    unfold spawnRoomsAux at h
    cases hsp : g.spawn_room number x0 y0 rw rh with
    | none => rw [hsp] at h; cases h
    | some g1 =>
      rw [hsp] at h
      refine spawnRoomsAux_pairwise rest g1 g' h ?_
      rcases spawn_room_inv hsp with ⟨rfl, _⟩ | ⟨hnone, k, _, _, _⟩
      · exact hp
      · rw [k, List.pairwise_append]
        refine ⟨hp, List.pairwise_singleton _ _, fun a ha b hb => ?_⟩
      
        have hb' : b = g.candidate x0 y0 rw rh := by simpa using hb
        subst hb'
        rw [intersects_comm]
        exact hnone a ha

/-- When the sampled width and height fit inside the grid, the (possibly
shifted) candidate room lies fully inside the grid. -/
theorem candidate_contained {g : Generator} {x0 y0 rw rh : Nat}
    (hw : rw ≤ g.width) (hh : rh ≤ g.height)
    (hx : x0 + rw < U64) (hy : y0 + rh < U64)
    (hW : g.width < U64) (hH : g.height < U64) :
    (g.candidate x0 y0 rw rh).x + (g.candidate x0 y0 rw rh).width ≤ g.width ∧
    (g.candidate x0 y0 rw rh).y + (g.candidate x0 y0 rw rh).height ≤ g.height := by
  simp only [Generator.candidate, Room.new]
  rw [wadd_eq hx, wadd_eq hy]
  constructor
  · by_cases hc : g.width < x0 + rw
    · simp only [hc, if_pos]
      rw [wsub_eq hw hW]
      omega
    · simp only [hc, if_neg, not_false_iff]
      omega
  · by_cases hc : g.height < y0 + rh
    · simp only [hc, if_pos]
      rw [wsub_eq hh hH]
      omega
    · simp only [hc, if_neg, not_false_iff]
      omega

/-- Every room accepted during the `spawn_rooms` loop, beyond those already
present, lies fully inside the grid, provided every sampled size fits the
grid. -/
theorem spawnRoomsAux_contained {number : Nat} :
    ∀ (samples : List (Nat × Nat × Nat × Nat)) (g g' : Generator),
      (∀ s ∈ samples, s.2.2.1 ≤ g.width ∧ s.2.2.2 ≤ g.height ∧
        s.1 + s.2.2.1 < U64 ∧ s.2.1 + s.2.2.2 < U64) →
      g.width < U64 → g.height < U64 →
      spawnRoomsAux number g samples = some g' →
      ∀ r ∈ g'.rooms, r ∈ g.rooms ∨
        (r.x + r.width ≤ g.width ∧ r.y + r.height ≤ g.height)
  | [], g, g', _, _, _, h => by
    unfold spawnRoomsAux at h
    cases h
    exact fun r hr => Or.inl hr
  | (x0, y0, rw, rh) :: rest, g, g', hs, hW, hH, h => by
    unfold spawnRoomsAux at h
    cases hsp : g.spawn_room number x0 y0 rw rh with
    | none => rw [hsp] at h; cases h
    | some g1 =>
      rw [hsp] at h
      intro r hr
      rcases spawn_room_inv hsp with ⟨heq, _⟩ | ⟨_, k, k1, k2, _⟩
      · subst heq
        exact spawnRoomsAux_contained rest _ g'
          (fun s hssub => hs s (List.mem_cons_of_mem _ hssub)) hW hH h r hr
      · have hrec := spawnRoomsAux_contained rest g1 g'
          (fun s hssub => by
            rw [k1, k2]
            exact hs s (List.mem_cons_of_mem _ hssub))
          (k1 ▸ hW) (k2 ▸ hH) h r hr
        rcases hrec with hmem | hcont
        · rw [k] at hmem
          rcases List.mem_append.mp hmem with hmem' | hcand
          · exact Or.inl hmem'
          · right
            have hr' : r = g.candidate x0 y0 rw rh := by simpa using hcand
            subst hr'
            obtain ⟨hhead, _⟩ := hs (x0, y0, rw, rh) (List.mem_cons_self _ _)
            obtain ⟨h1, h2, h3, h4⟩ := hs (x0, y0, rw, rh) (List.mem_cons_self _ _)
            exact candidate_contained h1 h2 h3 h4 hW hH
        · rw [k1, k2] at hcont
          exact Or.inr hcont

/-- C2: after any sequence of placements on a generator whose accumulated room
list is pairwise non-intersecting (as the fresh, empty list is), every pair of
rooms at distinct positions of the room list fails `Room::intersects`. -/
theorem rooms_pairwise_disjoint (g g' : Generator) (number : Nat)
    (samples : List (Nat × Nat × Nat × Nat))
    (hg : List.Pairwise (fun a b => a.intersects b = false) g.rooms)
    (h : g.spawn_rooms number samples = some g')
    (i j : Fin g'.rooms.length) (hij : i ≠ j) :
    (g'.rooms.get i).intersects (g'.rooms.get j) = false := by
  have hp := spawnRoomsAux_pairwise samples g g' h hg
  have hne : i.val ≠ j.val := fun hv => hij (Fin.ext hv)
  rcases Nat.lt_or_ge i.val j.val with hlt | hge
  · exact List.pairwise_iff_get.mp hp i j hlt
  · have hjl : j.val < i.val := by omega
    rw [intersects_comm]
    exact List.pairwise_iff_get.mp hp j i hjl

/-- Witness for C2: a concrete run placing two rooms on a 5 × 5 grid; the two
accepted rooms do not intersect. -/
theorem rooms_pairwise_disjoint_witness :
    (gen5rooms.rooms.get ⟨0, by decide⟩).intersects (gen5rooms.rooms.get ⟨1, by decide⟩)
      = false :=
  rooms_pairwise_disjoint gen5 gen5rooms 1 [(0, 0, 2, 2), (3, 3, 2, 2)]
    List.Pairwise.nil rfl ⟨0, by decide⟩ ⟨1, by decide⟩ (by decide)

/-- C3 (counterexample): on a 5 × 5 grid, one placement attempt with sampled
values `x = 0, y = 1` (both within the grid) and sampled size `7 × 4` (the
size bounds are not checked against the grid) completes without any bounds
violation and accepts a room whose stored origin is the wrapped value
`width - 7 = 2^64 - 2`: the room does not satisfy `x + width ≤ 5`, and its
cells were stamped into unrelated map entries. -/
theorem spawn_rooms_escapes_grid :
    Option.map Generator.rooms (gen5.spawn_rooms 9 [(0, 1, 7, 4)]) =
      some [⟨U64 - 2, 1, 5, 5, 7, 4⟩] ∧
    gen5.width = 5 ∧ ¬(U64 - 2 + 7 ≤ 5) :=
  ⟨rfl, rfl, by decide⟩

/-- C3 (amended): provided every sampled room size fits the grid
(`w ≤ width`, `h ≤ height`, no 64-bit overflow in `x + w` and `y + h`), every
room accepted by `spawn_rooms`, beyond those already present, lies fully
within the grid: `x + width ≤ grid width` and `y + height ≤ grid height`. -/
theorem spawn_rooms_contained (g g' : Generator) (number : Nat)
    (samples : List (Nat × Nat × Nat × Nat)) (r : Room)
    (hW : g.width < U64) (hH : g.height < U64)
    (hs : ∀ s ∈ samples, s.2.2.1 ≤ g.width ∧ s.2.2.2 ≤ g.height ∧
      s.1 + s.2.2.1 < U64 ∧ s.2.1 + s.2.2.2 < U64)
    (h : g.spawn_rooms number samples = some g')
    (hr : r ∈ g'.rooms) :
    r ∈ g.rooms ∨ (r.x + r.width ≤ g.width ∧ r.y + r.height ≤ g.height) :=
  spawnRoomsAux_contained samples g g' hs hW hH h r hr

/-- Witness for the amended C3: a concrete placement of a 3 × 3 room on a
5 × 5 grid; the accepted room is contained in the grid. -/
theorem spawn_rooms_contained_witness :
    Room.new 1 1 3 3 ∈ gen5.rooms ∨
    ((Room.new 1 1 3 3).x + (Room.new 1 1 3 3).width ≤ gen5.width ∧
      (Room.new 1 1 3 3).y + (Room.new 1 1 3 3).height ≤ gen5.height) :=
  spawn_rooms_contained gen5 gen5room1 3 [(1, 1, 3, 3)] (Room.new 1 1 3 3)
    (by decide) (by decide) (by decide) rfl (by decide)

/-- C7: when the candidate room of an attempt intersects some previously
accepted room, `spawn_room` returns the generator unchanged (same map, same
room list) and reports no error; consequently a `spawn_rooms` call with
`samples.length` requested rooms appends at most that many rooms. -/
theorem spawn_room_collision_no_change (g g' : Generator) (number x0 y0 rw rh : Nat)
    (samples : List (Nat × Nat × Nat × Nat))
    (hcol : (g.rooms.any fun o => (g.candidate x0 y0 rw rh).intersects o) = true)
    (hrun : g.spawn_rooms number samples = some g') :
    g.spawn_room number x0 y0 rw rh = some g ∧
    g'.rooms.length ≤ g.rooms.length + samples.length := by
  constructor
  · simp [Generator.spawn_room, hcol]
  · exact spawnRoomsAux_rooms_le samples g g' hrun

/-- Witness for C7: on the generator already holding two rooms, the attempt
`(0, 0, 2, 2)` collides and leaves the generator untouched. -/
theorem spawn_room_collision_no_change_witness :
    gen5rooms.spawn_room 1 0 0 2 2 = some gen5rooms ∧
    gen5rooms.rooms.length ≤ gen5rooms.rooms.length + 1 :=
  spawn_room_collision_no_change gen5rooms gen5rooms 1 0 0 2 2 [(0, 0, 2, 2)]
    (by decide) rfl

/-- C9: `spawn_perlin`, `set` and `spawn_rooms` never change the map length,
the width or the height, so the invariant `map.len() == width * height`
established by `with_size` is preserved by every subsequent operation. -/
theorem operations_preserve_shape (g g2 g3 : Generator) (noise : ℝ → ℝ → ℝ) (f : ℝ → Nat)
    (x y v number : Nat) (samples : List (Nat × Nat × Nat × Nat))
    (h2 : g.set x y v = some g2)
    (h3 : g.spawn_rooms number samples = some g3) :
    (g.spawn_perlin noise f).map.length = g.map.length ∧
    (g.spawn_perlin noise f).width = g.width ∧
    (g.spawn_perlin noise f).height = g.height ∧
    g2.map.length = g.map.length ∧ g2.width = g.width ∧ g2.height = g.height ∧
    g3.map.length = g.map.length ∧ g3.width = g.width ∧ g3.height = g.height := by
  obtain ⟨k1, k2, _, k4⟩ := set_frame h2
  obtain ⟨m1, m2, m3⟩ := spawnRoomsAux_frame samples g g3 h3
  refine ⟨?_, rfl, rfl, k4, k1, k2, m3, m1, m2⟩
  simp [Generator.spawn_perlin]

/-- Witness for C9 on the concrete 2 × 2 generator. -/
theorem operations_preserve_shape_witness :
    (gen4.spawn_perlin (fun _ _ => 0) (fun _ => 1)).map.length = gen4.map.length ∧
    (gen4.spawn_perlin (fun _ _ => 0) (fun _ => 1)).width = gen4.width ∧
    (gen4.spawn_perlin (fun _ _ => 0) (fun _ => 1)).height = gen4.height ∧
    gen4set.map.length = gen4.map.length ∧ gen4set.width = gen4.width ∧
    gen4set.height = gen4.height ∧
    gen4.map.length = gen4.map.length ∧ gen4.width = gen4.width ∧
    gen4.height = gen4.height :=
  operations_preserve_shape gen4 gen4set gen4 (fun _ _ => 0) (fun _ => 1) 0 1 9 1 []
    rfl rfl
